import Mathlib

/-!
Verification of the clockify-cli HTTP client core (`http/http.go`):
client construction, request building (`NewRequest`), transport decoration,
and response processing (`Do`).

The Go standard library collaborators are modelled at the JSON data-model
level: `Json` is the JSON value AST, `serJ` is the compact serializer used
by `encoding/json`'s Encoder (which terminates each value with a newline),
and `parseVal` is a recursive-descent decoder with an explicit recursion
budget, standing in for `encoding/json`'s Decoder.
-/

namespace Clockify

/-- JSON values, the data model of `encoding/json` (numbers restricted to
integers, which is all this client ever sends or receives). -/
inductive Json where
  | null : Json
  | bool (b : Bool) : Json
  | num (n : Int) : Json
  | str (s : List Char) : Json
  | arr (elems : List Json) : Json
  | obj (fields : List (List Char × Json)) : Json
deriving Repr

/-- One decimal digit as a character. -/
def digitChar (d : Nat) : Char :=
  match d with
  | 0 => '0'
  | 1 => '1'
  | 2 => '2'
  | 3 => '3'
  | 4 => '4'
  | 5 => '5'
  | 6 => '6'
  | 7 => '7'
  | 8 => '8'
  | _ => '9'

/-- Numeric value of a digit character. -/
def digitVal (c : Char) : Nat := c.toNat - 48

/-- Decimal digits of a positive number, most significant first; the first
argument is a recursion budget (`n` itself is always enough). -/
def natCharsAux : Nat → Nat → List Char
  | 0, _ => []
  | fuel + 1, n =>
    if n = 0 then [] else natCharsAux fuel (n / 10) ++ [digitChar (n % 10)]

/-- Decimal representation of a natural number. -/
def natChars (n : Nat) : List Char :=
  if n = 0 then ['0'] else natCharsAux n n

/-- Decimal representation of an integer (no minus sign on zero). -/
def intChars (n : Int) : List Char :=
  if n < 0 then '-' :: natChars n.natAbs else natChars n.toNat

/-- JSON string escaping for one character: `encoding/json` escapes the
quote and the backslash (we keep every other character verbatim). -/
def escChar (c : Char) : List Char :=
  if c = '"' ∨ c = '\\' then ['\\', c] else [c]

/-- JSON string escaping. -/
def escape : List Char → List Char
  | [] => []
  | c :: cs => escChar c ++ escape cs

/-- A JSON string literal, quotes included. -/
def serStr (s : List Char) : List Char :=
  '"' :: (escape s ++ ['"'])

/-- The keyword chars of the JSON null literal. -/
def nullChars : List Char := ['n', 'u', 'l', 'l']

/-- The keyword chars of the JSON true literal. -/
def trueChars : List Char := ['t', 'r', 'u', 'e']

/-- The keyword chars of the JSON false literal. -/
def falseChars : List Char := ['f', 'a', 'l', 's', 'e']

mutual

/-- Compact JSON serialization of a value (`encoding/json` marshal without
interstitial whitespace). -/
def serJ : Json → List Char
  | .null => nullChars
  | .bool true => trueChars
  | .bool false => falseChars
  | .num n => intChars n
  | .str s => serStr s
  | .arr l => '[' :: (serItems l ++ [']'])
  | .obj l => '{' :: (serFields l ++ ['}'])

/-- Comma-separated serialization of array elements. -/
def serItems : List Json → List Char
  | [] => []
  | [j] => serJ j
  | j :: js => serJ j ++ (',' :: serItems js)

/-- Comma-separated serialization of object members. -/
def serFields : List (List Char × Json) → List Char
  | [] => []
  | [(k, v)] => serStr k ++ (':' :: serJ v)
  | (k, v) :: kvs => serStr k ++ (':' :: serJ v) ++ (',' :: serFields kvs)

end

/-- The Go `json.Encoder` terminates every encoded value with a newline;
this is the exact buffer content `NewRequest` attaches to a request. -/
def encodeToBuffer (j : Json) : List Char :=
  serJ j ++ ['\n']

mutual

/-- Recursion budget sufficient to parse the serialization of a value. -/
def fuelJ : Json → Nat
  | .null => 1
  | .bool _ => 1
  | .num _ => 1
  | .str _ => 1
  | .arr l => 1 + fuelL l
  | .obj l => 1 + fuelF l

def fuelL : List Json → Nat
  | [] => 0
  | j :: js => 1 + fuelJ j + fuelL js

def fuelF : List (List Char × Json) → Nat
  | [] => 0
  | kv :: kvs => 1 + fuelJ kv.2 + fuelF kvs

end

/-- Match a literal prefix, returning the remainder of the input. -/
def dropPrefixChars : List Char → List Char → Option (List Char)
  | [], s => some s
  | p :: ps, c :: cs => if c = p then dropPrefixChars ps cs else none
  | _ :: _, [] => none

/-- Accumulating decimal parser: consumes a maximal run of digits. -/
def parseNatAcc (acc : Nat) : List Char → Nat × List Char
  | [] => (acc, [])
  | c :: cs =>
    if c.isDigit then parseNatAcc (acc * 10 + digitVal c) cs else (acc, c :: cs)

/-- Parse the remainder of a JSON string literal (opening quote already
consumed): unescapes `\x7b backslash quote \x7d` and
`\x7b backslash backslash \x7d`, stops at the closing quote. -/
def parseStrAux : List Char → Option (List Char × List Char)
  | [] => none
  | c :: r =>
    if c = '"' then some ([], r)
    else if c = '\\' then
      match r with
      | [] => none
      | e :: r2 =>
        if e = '"' ∨ e = '\\' then
          (parseStrAux r2).map (fun p => (e :: p.1, p.2))
        else none
    else (parseStrAux r).map (fun p => (c :: p.1, p.2))

mutual

/-- Recursive-descent JSON value parser with an explicit recursion budget,
modelling `encoding/json`'s Decoder on compact input. Returns the parsed
value and the unconsumed remainder. -/
def parseVal : Nat → List Char → Option (Json × List Char)
  | 0, _ => none
  | _ + 1, [] => none
  | fuel + 1, c :: r =>
    if c = 'n' then (dropPrefixChars ['u', 'l', 'l'] r).map (fun rest => (Json.null, rest))
    else if c = 't' then (dropPrefixChars ['r', 'u', 'e'] r).map (fun rest => (Json.bool true, rest))
    else if c = 'f' then (dropPrefixChars ['a', 'l', 's', 'e'] r).map (fun rest => (Json.bool false, rest))
    else if c = '"' then (parseStrAux r).map (fun p => (Json.str p.1, p.2))
    else if c = '[' then
      match r with
      | ']' :: r2 => some (Json.arr [], r2)
      | _ => (parseItems fuel r).map (fun p => (Json.arr p.1, p.2))
    else if c = '{' then
      match r with
      | '}' :: r2 => some (Json.obj [], r2)
      | _ => (parseFields fuel r).map (fun p => (Json.obj p.1, p.2))
    else if c = '-' then
      match r with
      | [] => none
      | d :: r2 =>
        if d.isDigit then
          let p := parseNatAcc (digitVal d) r2
          some (Json.num (-(p.1 : Int)), p.2)
        else none
    else if c.isDigit then
      let p := parseNatAcc (digitVal c) r
      some (Json.num (p.1 : Int), p.2)
    else none

/-- Parse one or more comma-separated array elements and the closing
bracket. -/
def parseItems : Nat → List Char → Option (List Json × List Char)
  | 0, _ => none
  | fuel + 1, s =>
    match parseVal fuel s with
    | none => none
    | some (j, rest) =>
      match rest with
      | ',' :: r2 => (parseItems fuel r2).map (fun p => (j :: p.1, p.2))
      | ']' :: r2 => some ([j], r2)
      | _ => none

/-- Parse one or more comma-separated object members and the closing
brace. -/
def parseFields : Nat → List Char → Option (List (List Char × Json) × List Char)
  | 0, _ => none
  | fuel + 1, s =>
    match s with
    | '"' :: r =>
      match parseStrAux r with
      | some (key, ':' :: r2) =>
        match parseVal fuel r2 with
        | some (v, ',' :: r3) => (parseFields fuel r3).map (fun p => ((key, v) :: p.1, p.2))
        | some (v, '}' :: r3) => some ([(key, v)], r3)
        | _ => none
      | _ => none
    | _ => none

end

/-- Decode one JSON value from a buffer, ignoring any trailing input (the
behavior of `json.Decoder.Decode`, which reads a single value). The input
length plus one always suffices as budget. -/
def jsonDecode (s : List Char) : Option Json :=
  (parseVal (s.length + 1) s).map (fun p => p.1)

/-- Input that does not begin with a digit (so a maximal-digit-run parser
stops exactly at its head). -/
def noDigitHead : List Char → Bool
  | [] => true
  | c :: _ => !c.isDigit

/-- Value of a digit string under a left fold, extending an accumulator. -/
def charsVal (acc : Nat) (l : List Char) : Nat :=
  l.foldl (fun a c => a * 10 + digitVal c) acc

theorem digitVal_digitChar (d : Nat) (h : d < 10) : digitVal (digitChar d) = d := by
  interval_cases d <;> decide

theorem isDigit_digitChar (d : Nat) : (digitChar d).isDigit = true := by
  unfold digitChar
  split <;> decide

theorem parseNatAcc_stop (acc : Nat) (rest : List Char) (h : noDigitHead rest = true) :
    parseNatAcc acc rest = (acc, rest) := by
  cases rest with
  | nil => rfl
  | cons c cs =>
    simp only [noDigitHead, Bool.not_eq_eq_eq_not, Bool.not_true] at h
    simp [parseNatAcc, h]

theorem parseNatAcc_digits (ds : List Char) (hds : ∀ c ∈ ds, c.isDigit = true)
    (rest : List Char) (hr : noDigitHead rest = true) (acc : Nat) :
    parseNatAcc acc (ds ++ rest) = (charsVal acc ds, rest) := by
  induction ds generalizing acc with
  | nil =>
    rw [List.nil_append, parseNatAcc_stop acc rest hr]
    rfl
  | cons c cs ih =>
    have hc : c.isDigit = true := hds c (by simp)
    rw [List.cons_append, parseNatAcc, if_pos hc]
    exact ih (fun x hx => hds x (by simp [hx])) _

theorem charsVal_append (acc : Nat) (xs ys : List Char) :
    charsVal acc (xs ++ ys) = charsVal (charsVal acc xs) ys := by
  simp only [charsVal, List.foldl_append]

theorem natCharsAux_digits (fuel n : Nat) :
    ∀ c ∈ natCharsAux fuel n, c.isDigit = true := by
  induction fuel generalizing n with
  | zero => simp [natCharsAux]
  | succ f ih =>
    intro c hc
    unfold natCharsAux at hc
    by_cases h0 : n = 0
    · simp [h0] at hc
    · rw [if_neg h0] at hc
      rcases List.mem_append.mp hc with h | h
      · exact ih _ c h
      · simp only [List.mem_singleton] at h
        subst h
        exact isDigit_digitChar _

theorem charsVal_natCharsAux (fuel : Nat) :
    ∀ n acc, n ≤ fuel →
      charsVal acc (natCharsAux fuel n) = acc * 10 ^ (natCharsAux fuel n).length + n := by
  induction fuel with
  | zero =>
    intro n acc hn
    interval_cases n
    simp [natCharsAux, charsVal]
  | succ f ih =>
    intro n acc hn
    by_cases h0 : n = 0
    · simp [natCharsAux, h0, charsVal]
    · have hdiv : n / 10 ≤ f := by omega
      rw [natCharsAux, if_neg h0, charsVal_append, ih (n / 10) acc hdiv]
      simp only [charsVal, List.foldl_cons, List.foldl_nil, List.length_append,
        List.length_singleton]
      rw [digitVal_digitChar (n % 10) (Nat.mod_lt n (by omega))]
      rw [pow_succ, ← Nat.mul_assoc]
      generalize acc * 10 ^ (natCharsAux f (n / 10)).length = X
      omega

theorem natChars_spec (n : Nat) :
    ∃ d ds, natChars n = d :: ds ∧ (∀ c ∈ d :: ds, c.isDigit = true) ∧
      charsVal 0 (d :: ds) = n := by
  by_cases h0 : n = 0
  · exact ⟨'0', [], by simp [natChars, h0], by decide, by simp [h0, charsVal, digitVal]⟩
  · have hne : natCharsAux n n ≠ [] := by
      cases n with
      | zero => exact absurd rfl h0
      | succ m => rw [natCharsAux, if_neg h0]; simp
    obtain ⟨d, ds, hds⟩ := List.exists_cons_of_ne_nil hne
    refine ⟨d, ds, by rw [natChars, if_neg h0, hds], ?_, ?_⟩
    · intro c hc
      exact natCharsAux_digits n n c (by rw [hds]; exact hc)
    · have := charsVal_natCharsAux n n 0 le_rfl
      rw [hds] at this
      simpa using this

theorem parseNat_natChars (n : Nat) (rest : List Char) (hr : noDigitHead rest = true) :
    ∃ d ds, natChars n = d :: ds ∧ d.isDigit = true ∧
      parseNatAcc (digitVal d) (ds ++ rest) = (n, rest) := by
  obtain ⟨d, ds, heq, hdig, hval⟩ := natChars_spec n
  refine ⟨d, ds, heq, hdig d (by simp), ?_⟩
  rw [parseNatAcc_digits ds (fun c hc => hdig c (by simp [hc])) rest hr]
  have h2 : charsVal (digitVal d) ds = n := by
    simp only [charsVal, List.foldl_cons, Nat.zero_mul, Nat.zero_add] at hval
    exact hval
  rw [h2]

theorem dropPrefixChars_append (p s : List Char) :
    dropPrefixChars p (p ++ s) = some s := by
  induction p with
  | nil => rfl
  | cons c cs ih => simpa [dropPrefixChars] using ih

theorem parseStrAux_escape (s rest : List Char) :
    parseStrAux (escape s ++ ('"' :: rest)) = some (s, rest) := by
  induction s with
  | nil =>
    show parseStrAux ('"' :: rest) = some ([], rest)
    rw [parseStrAux.eq_def]
    simp
  | cons c cs ih =>
    by_cases hc : c = '"' ∨ c = '\\'
    · have h1 : escape (c :: cs) = '\\' :: c :: escape cs := by
        simp [escape, escChar, hc]
      rw [h1, List.cons_append, List.cons_append, parseStrAux.eq_def]
      simp [hc, ih]
    · have h1 : escape (c :: cs) = c :: escape cs := by
        simp [escape, escChar, hc]
      rw [h1, List.cons_append, parseStrAux.eq_def]
      push_neg at hc
      simp [hc.1, hc.2, ih]

theorem ne_of_isDigit {d : Char} (hd : d.isDigit = true) (c : Char)
    (hc : c.isDigit = false) : d ≠ c := by
  intro h
  subst h
  rw [hd] at hc
  exact Bool.noConfusion hc

theorem noDigitHead_cons (c : Char) (l : List Char) (h : c.isDigit = false) :
    noDigitHead (c :: l) = true := by
  simp [noDigitHead, h]

theorem parseVal_intChars (n : Int) (fuel : Nat) (rest : List Char)
    (hr : noDigitHead rest = true) :
    parseVal (fuel + 1) (intChars n ++ rest) = some (Json.num n, rest) := by
  rcases le_or_lt 0 n with hn | hn
  · have hic : intChars n = natChars n.toNat := by
      rw [intChars, if_neg (by omega)]
    obtain ⟨d, ds, heq, hdd, hparse⟩ := parseNat_natChars n.toNat rest hr
    rw [hic, heq, List.cons_append]
    have h1 : d ≠ 'n' := ne_of_isDigit hdd 'n' (by decide)
    have h2 : d ≠ 't' := ne_of_isDigit hdd 't' (by decide)
    have h3 : d ≠ 'f' := ne_of_isDigit hdd 'f' (by decide)
    have h4 : d ≠ '"' := ne_of_isDigit hdd '"' (by decide)
    have h5 : d ≠ '[' := ne_of_isDigit hdd '[' (by decide)
    have h6 : d ≠ '{' := ne_of_isDigit hdd '{' (by decide)
    have h7 : d ≠ '-' := ne_of_isDigit hdd '-' (by decide)
    simp only [parseVal, h1, h2, h3, h4, h5, h6, h7, hdd, if_false, if_true,
      reduceIte]
    rw [hparse]
    simp [Int.toNat_of_nonneg hn]
  · have hic : intChars n = '-' :: natChars n.natAbs := by
      rw [intChars, if_pos hn]
    obtain ⟨d, ds, heq, hdd, hparse⟩ := parseNat_natChars n.natAbs rest hr
    rw [hic, List.cons_append, heq, List.cons_append]
    simp only [parseVal, reduceIte, hdd, if_true]
    rw [hparse]
    simp only [Char.reduceEq, if_false, Option.some.injEq, Prod.mk.injEq,
      Json.num.injEq, reduceIte]
    exact ⟨by omega, trivial⟩

theorem serJ_head (j : Json) :
    ∃ c cs, serJ j = c :: cs ∧
      (c = 'n' ∨ c = 't' ∨ c = 'f' ∨ c = '"' ∨ c = '[' ∨ c = '{' ∨ c = '-' ∨
        c.isDigit = true) := by
  cases j with
  | null => exact ⟨'n', _, rfl, by decide⟩
  | bool b => cases b with
    | true => exact ⟨'t', _, rfl, by decide⟩
    | false => exact ⟨'f', _, rfl, by decide⟩
  | num n =>
    rcases le_or_lt 0 n with hn | hn
    · obtain ⟨d, ds, heq, hdigs, _⟩ := natChars_spec n.toNat
      refine ⟨d, ds, ?_, ?_⟩
      · rw [show serJ (Json.num n) = intChars n from rfl, intChars, if_neg (by omega), heq]
      · exact Or.inr (Or.inr (Or.inr (Or.inr (Or.inr (Or.inr (Or.inr (hdigs d (by simp))))))))
    · exact ⟨'-', _, by rw [show serJ (Json.num n) = intChars n from rfl, intChars, if_pos hn],
        by decide⟩
  | str s => exact ⟨'"', _, rfl, by decide⟩
  | arr l => exact ⟨'[', _, rfl, by decide⟩
  | obj l => exact ⟨'{', _, rfl, by decide⟩

theorem Json.myInduct (P : Json → Prop)
    (hnull : P .null) (hbool : ∀ b, P (.bool b)) (hnum : ∀ n, P (.num n))
    (hstr : ∀ s, P (.str s))
    (harr : ∀ l, (∀ j ∈ l, P j) → P (.arr l))
    (hobj : ∀ l, (∀ kv ∈ l, P kv.2) → P (.obj l)) : ∀ j, P j
  | .null => hnull
  | .bool b => hbool b
  | .num n => hnum n
  | .str s => hstr s
  | .arr l => harr l (fun j hj => Json.myInduct P hnull hbool hnum hstr harr hobj j)
  | .obj l => hobj l (fun kv hkv => Json.myInduct P hnull hbool hnum hstr harr hobj kv.2)
termination_by j => sizeOf j
decreasing_by
  · have h1 := List.sizeOf_lt_of_mem hj
    simp only [Json.arr.sizeOf_spec]
    omega
  · have h1 := List.sizeOf_lt_of_mem hkv
    have h2 : sizeOf kv.2 < sizeOf kv := by
      obtain ⟨k, v⟩ := kv
      simp only [Prod.mk.sizeOf_spec]
      omega
    simp only [Json.obj.sizeOf_spec]
    omega

theorem fuelL_cons (j : Json) (js : List Json) :
    fuelL (j :: js) = 1 + fuelJ j + fuelL js := by
  rw [fuelL]

theorem fuelF_cons (kv : List Char × Json) (kvs : List (List Char × Json)) :
    fuelF (kv :: kvs) = 1 + fuelJ kv.2 + fuelF kvs := by
  rw [fuelF]

theorem one_le_fuelJ (j : Json) : 1 ≤ fuelJ j := by
  cases j <;> simp [fuelJ]

theorem serItems_one (j : Json) : serItems [j] = serJ j := by
  rw [serItems]

theorem serItems_cons₂ (j j2 : Json) (js : List Json) :
    serItems (j :: j2 :: js) = serJ j ++ (',' :: serItems (j2 :: js)) := by
  rw [serItems]
  simp

theorem serFields_one (k : List Char) (v : Json) :
    serFields [(k, v)] = serStr k ++ (':' :: serJ v) := by
  rw [serFields]

theorem serFields_cons₂ (k : List Char) (v : Json) (kv : List Char × Json)
    (kvs : List (List Char × Json)) :
    serFields ((k, v) :: kv :: kvs) =
      serStr k ++ (':' :: serJ v) ++ (',' :: serFields (kv :: kvs)) := by
  rw [serFields]
  simp

theorem parseItems_ser (l : List Json)
    (hP : ∀ j ∈ l, ∀ fuel rest, fuelJ j ≤ fuel → noDigitHead rest = true →
      parseVal fuel (serJ j ++ rest) = some (j, rest))
    (hne : l ≠ []) :
    ∀ fuel rest, fuelL l ≤ fuel →
      parseItems fuel (serItems l ++ (']' :: rest)) = some (l, rest) := by
  induction l with
  | nil => exact absurd rfl hne
  | cons j js ih =>
    intro fuel rest hfuel
    rw [fuelL_cons] at hfuel
    obtain ⟨f, rfl⟩ : ∃ f, fuel = f + 1 := ⟨fuel - 1, by omega⟩
    have hj := hP j (by simp)
    cases js with
    | nil =>
      rw [serItems_one]
      simp only [parseItems]
      rw [hj f (']' :: rest) (by omega) (noDigitHead_cons ']' rest (by decide))]
      rfl
    | cons j2 js2 =>
      rw [serItems_cons₂, List.append_assoc, List.cons_append]
      simp only [parseItems]
      rw [hj f (',' :: (serItems (j2 :: js2) ++ (']' :: rest)))
        (by omega) (noDigitHead_cons ',' _ (by decide))]
      show (parseItems f (serItems (j2 :: js2) ++ (']' :: rest))).map
        (fun p => (j :: p.1, p.2)) = some (j :: j2 :: js2, rest)
      rw [ih (fun x hx => hP x (by simp [hx])) (by simp) f rest (by omega)]
      rfl

theorem parseFields_step (fuel : Nat) (k : List Char) (X : List Char) :
    parseFields (fuel + 1) ('"' :: (escape k ++ ('"' :: (':' :: X)))) =
      match parseVal fuel X with
      | some (v, ',' :: r3) => (parseFields fuel r3).map (fun p => ((k, v) :: p.1, p.2))
      | some (v, '}' :: r3) => some ([(k, v)], r3)
      | _ => none := by
  simp only [parseFields]
  rw [parseStrAux_escape]
  rfl

theorem parseFields_ser (l : List (List Char × Json))
    (hP : ∀ kv ∈ l, ∀ fuel rest, fuelJ kv.2 ≤ fuel → noDigitHead rest = true →
      parseVal fuel (serJ kv.2 ++ rest) = some (kv.2, rest))
    (hne : l ≠ []) :
    ∀ fuel rest, fuelF l ≤ fuel →
      parseFields fuel (serFields l ++ ('}' :: rest)) = some (l, rest) := by
  induction l with
  | nil => exact absurd rfl hne
  | cons kv kvs ih =>
    obtain ⟨k, v⟩ := kv
    intro fuel rest hfuel
    rw [fuelF_cons] at hfuel
    have hfuel2 : 1 + fuelJ v + fuelF kvs ≤ fuel := hfuel
    obtain ⟨f, rfl⟩ : ∃ f, fuel = f + 1 := ⟨fuel - 1, by omega⟩
    have hv : ∀ fuel rest, fuelJ v ≤ fuel → noDigitHead rest = true →
        parseVal fuel (serJ v ++ rest) = some (v, rest) := hP (k, v) (by simp)
    cases kvs with
    | nil =>
      rw [serFields_one]
      have hshape : (serStr k ++ (':' :: serJ v)) ++ ('}' :: rest) =
          '"' :: (escape k ++ ('"' :: (':' :: (serJ v ++ ('}' :: rest))))) := by
        simp [serStr]
      rw [hshape, parseFields_step]
      rw [hv f ('}' :: rest) (by omega) (noDigitHead_cons '}' rest (by decide))]
      rfl
    | cons kv2 kvs2 =>
      rw [serFields_cons₂]
      have hshape : (serStr k ++ (':' :: serJ v) ++ (',' :: serFields (kv2 :: kvs2)))
            ++ ('}' :: rest) =
          '"' :: (escape k ++ ('"' :: (':' :: (serJ v ++
            (',' :: (serFields (kv2 :: kvs2) ++ ('}' :: rest))))))) := by
        simp [serStr]
      rw [hshape, parseFields_step]
      rw [hv f (',' :: (serFields (kv2 :: kvs2) ++ ('}' :: rest)))
        (by omega) (noDigitHead_cons ',' _ (by decide))]
      show (parseFields f (serFields (kv2 :: kvs2) ++ ('}' :: rest))).map
        (fun p => ((k, v) :: p.1, p.2)) = some ((k, v) :: kv2 :: kvs2, rest)
      rw [ih (fun x hx => hP x (by simp [hx])) (by simp) f rest (by omega)]
      rfl

theorem parseVal_serJ (j : Json) :
    ∀ fuel rest, fuelJ j ≤ fuel → noDigitHead rest = true →
      parseVal fuel (serJ j ++ rest) = some (j, rest) := by
  induction j using Json.myInduct with
  | hnull =>
    intro fuel rest hf hr
    obtain ⟨f, rfl⟩ : ∃ f, fuel = f + 1 := ⟨fuel - 1, by simp [fuelJ] at hf; omega⟩
    simp [serJ, nullChars, parseVal, dropPrefixChars]
  | hbool b =>
    intro fuel rest hf hr
    obtain ⟨f, rfl⟩ : ∃ f, fuel = f + 1 := ⟨fuel - 1, by simp [fuelJ] at hf; omega⟩
    cases b <;> simp [serJ, trueChars, falseChars, parseVal, dropPrefixChars]
  | hnum n =>
    intro fuel rest hf hr
    obtain ⟨f, rfl⟩ : ∃ f, fuel = f + 1 := ⟨fuel - 1, by simp [fuelJ] at hf; omega⟩
    rw [show serJ (Json.num n) = intChars n by rw [serJ]]
    exact parseVal_intChars n f rest hr
  | hstr s =>
    intro fuel rest hf hr
    obtain ⟨f, rfl⟩ : ∃ f, fuel = f + 1 := ⟨fuel - 1, by simp [fuelJ] at hf; omega⟩
    rw [show serJ (Json.str s) = serStr s by rw [serJ]]
    have hshape : serStr s ++ rest = '"' :: (escape s ++ ('"' :: rest)) := by
      simp [serStr]
    rw [hshape]
    simp only [parseVal, reduceIte, Char.reduceEq, if_false]
    rw [parseStrAux_escape]
    rfl
  | harr l hIH =>
    intro fuel rest hf hr
    obtain ⟨f, rfl⟩ : ∃ f, fuel = f + 1 :=
      ⟨fuel - 1, by have := one_le_fuelJ (Json.arr l); omega⟩
    have hfl : fuelL l ≤ f := by simp [fuelJ] at hf; omega
    cases l with
    | nil =>
      rw [show serJ (Json.arr []) = '[' :: (serItems [] ++ [']']) by rw [serJ]]
      rw [show serItems ([] : List Json) = [] by rw [serItems]]
      simp [parseVal]
    | cons j1 js =>
      rw [show serJ (Json.arr (j1 :: js)) = '[' :: (serItems (j1 :: js) ++ [']'])
        by rw [serJ]]
      rw [List.cons_append, List.append_assoc, List.singleton_append]
      simp only [parseVal, reduceIte, Char.reduceEq, if_false]
      obtain ⟨c, cs, hcons, hset⟩ := serJ_head j1
      have htail : ∃ t, serItems (j1 :: js) = serJ j1 ++ t := by
        cases js with
        | nil => exact ⟨[], by rw [serItems_one, List.append_nil]⟩
        | cons j2 js2 => exact ⟨',' :: serItems (j2 :: js2), by rw [serItems_cons₂]⟩
      obtain ⟨t, ht⟩ := htail
      split
      · rename_i r2 heq2
        rw [ht, hcons] at heq2
        simp only [List.cons_append, List.cons.injEq] at heq2
        rcases hset with h | h | h | h | h | h | h | h <;>
          first
          | (subst h; exact absurd heq2.1 (by decide))
          | (exfalso; rw [heq2.1] at h; exact absurd h (by decide))
      · rw [parseItems_ser (j1 :: js) hIH (by simp) f rest hfl]
        rfl
  | hobj l hIH =>
    intro fuel rest hf hr
    obtain ⟨f, rfl⟩ : ∃ f, fuel = f + 1 :=
      ⟨fuel - 1, by have := one_le_fuelJ (Json.obj l); omega⟩
    have hfl : fuelF l ≤ f := by simp [fuelJ] at hf; omega
    cases l with
    | nil =>
      rw [show serJ (Json.obj []) = '{' :: (serFields [] ++ ['}']) by rw [serJ]]
      rw [show serFields ([] : List (List Char × Json)) = [] by rw [serFields]]
      simp [parseVal]
    | cons kv1 kvs =>
      obtain ⟨k1, v1⟩ := kv1
      rw [show serJ (Json.obj ((k1, v1) :: kvs)) =
        '{' :: (serFields ((k1, v1) :: kvs) ++ ['}']) by rw [serJ]]
      rw [List.cons_append, List.append_assoc, List.singleton_append]
      simp only [parseVal, reduceIte, Char.reduceEq, if_false]
      have htail : ∃ t, serFields ((k1, v1) :: kvs) = '"' :: t := by
        cases kvs with
        | nil => exact ⟨escape k1 ++ ['"'] ++ (':' :: serJ v1), by rw [serFields_one]; simp [serStr]⟩
        | cons kv2 kvs2 =>
          exact ⟨escape k1 ++ ['"'] ++ (':' :: serJ v1) ++ (',' :: serFields (kv2 :: kvs2)),
            by rw [serFields_cons₂]; simp [serStr]⟩
      obtain ⟨t, ht⟩ := htail
      split
      · rename_i r2 heq2
        rw [ht] at heq2
        simp only [List.cons_append, List.cons.injEq] at heq2
        exact absurd heq2.1 (by decide)
      · rw [parseFields_ser ((k1, v1) :: kvs) hIH (by simp) f rest hfl]
        rfl

theorem one_le_length_intChars (n : Int) : 1 ≤ (intChars n).length := by
  rw [intChars]
  split
  · simp
  · obtain ⟨d, ds, heq, -, -⟩ := natChars_spec n.toNat
    rw [heq]
    simp

theorem fuelL_le_length (l : List Json)
    (h : ∀ j ∈ l, fuelJ j ≤ (serJ j).length) :
    fuelL l ≤ (serItems l).length + 1 := by
  induction l with
  | nil => simp [fuelL, serItems]
  | cons j js ih =>
    rw [fuelL_cons]
    have hj := h j (by simp)
    cases js with
    | nil =>
      rw [serItems_one]
      have : fuelL ([] : List Json) = 0 := by rw [fuelL]
      omega
    | cons j2 js2 =>
      rw [serItems_cons₂]
      have hih := ih (fun x hx => h x (by simp [hx]))
      simp only [List.length_append, List.length_cons]
      omega

theorem fuelF_le_length (l : List (List Char × Json))
    (h : ∀ kv ∈ l, fuelJ kv.2 ≤ (serJ kv.2).length) :
    fuelF l ≤ (serFields l).length + 1 := by
  induction l with
  | nil => simp [fuelF, serFields]
  | cons kv kvs ih =>
    obtain ⟨k, v⟩ := kv
    rw [fuelF_cons]
    have hv : fuelJ v ≤ (serJ v).length := h (k, v) (by simp)
    cases kvs with
    | nil =>
      rw [serFields_one]
      have : fuelF ([] : List (List Char × Json)) = 0 := by rw [fuelF]
      simp only [List.length_append, List.length_cons]
      omega
    | cons kv2 kvs2 =>
      rw [serFields_cons₂]
      have hih := ih (fun x hx => h x (by simp [hx]))
      simp only [List.length_append, List.length_cons]
      omega

theorem fuelJ_le_length (j : Json) : fuelJ j ≤ (serJ j).length := by
  induction j using Json.myInduct with
  | hnull => rw [show serJ Json.null = nullChars by rw [serJ]]; simp [nullChars, fuelJ]
  | hbool b =>
    cases b
    · rw [show serJ (Json.bool false) = falseChars by rw [serJ]]
      simp [falseChars, fuelJ]
    · rw [show serJ (Json.bool true) = trueChars by rw [serJ]]
      simp [trueChars, fuelJ]
  | hnum n =>
    rw [show serJ (Json.num n) = intChars n by rw [serJ]]
    have := one_le_length_intChars n
    simp [fuelJ]
    omega
  | hstr s =>
    rw [show serJ (Json.str s) = serStr s by rw [serJ]]
    simp [fuelJ, serStr]
  | harr l hIH =>
    rw [show serJ (Json.arr l) = '[' :: (serItems l ++ [']']) by rw [serJ]]
    have := fuelL_le_length l hIH
    simp only [List.length_cons, List.length_append, List.length_singleton]
    have hfj : fuelJ (Json.arr l) = 1 + fuelL l := by rw [fuelJ]
    omega
  | hobj l hIH =>
    rw [show serJ (Json.obj l) = '{' :: (serFields l ++ ['}']) by rw [serJ]]
    have := fuelF_le_length l hIH
    simp only [List.length_cons, List.length_append, List.length_singleton]
    have hfj : fuelJ (Json.obj l) = 1 + fuelF l := by rw [fuelJ]
    omega

theorem jsonDecode_encodeToBuffer (j : Json) :
    jsonDecode (encodeToBuffer j) = some j := by
  rw [jsonDecode, encodeToBuffer]
  rw [parseVal_serJ j ((serJ j ++ ['\n']).length + 1) ['\n']
    (by have := fuelJ_le_length j; simp [List.length_append]; omega)
    (by decide)]
  rfl

/-- A URL, holding the components this client manipulates (`net/url.URL`
restricted to scheme, host, path and raw query). -/
structure URL where
  scheme : String
  host : String
  path : String
  query : String
deriving DecidableEq, Repr

/-- ASCII control characters make `net/url.Parse` fail. -/
def hasCtl (s : String) : Bool :=
  s.data.any (fun c => c.toNat < 32 || c.toNat = 127)

/-- Split at the first occurrence of a separator character; `none` when the
separator does not occur. -/
def breakAt (sep : Char) : List Char → Option (List Char × List Char)
  | [] => none
  | c :: cs =>
    if c = sep then some ([], cs)
    else (breakAt sep cs).map (fun p => (c :: p.1, p.2))

/-- Split at the first scheme separator `://`. -/
def splitSchemeSep : List Char → Option (List Char × List Char)
  | [] => none
  | ':' :: '/' :: '/' :: rest => some ([], rest)
  | c :: cs => (splitSchemeSep cs).map (fun p => (c :: p.1, p.2))

/-- Modelled from `net/url.Parse` essentials: reject control characters,
split off the raw query at the first question mark, and when a scheme
separator is present split scheme, host (up to the first slash) and path;
otherwise the input is a relative reference with empty scheme and host. -/
def urlParse (s : String) : Option URL :=
  if hasCtl s then none
  else
    let l := s.data
    let pq := match breakAt '?' l with
      | none => (l, [])
      | some p => p
    match splitSchemeSep pq.1 with
    | some (sch, rest) =>
      let hp := match breakAt '/' rest with
        | none => (rest, [])
        | some p => (p.1, '/' :: p.2)
      some { scheme := String.mk sch, host := String.mk hp.1,
             path := String.mk hp.2, query := String.mk pq.2 }
    | none =>
      some { scheme := "", host := "", path := String.mk pq.1,
             query := String.mk pq.2 }

/-- Modelled from `net/url.URL.ResolveReference` essentials: an absolute
reference wins outright; otherwise scheme and host come from the base and
path and query from the reference. -/
def URL.ResolveReference (base ref : URL) : URL :=
  if ref.scheme ≠ "" then ref
  else { scheme := base.scheme, host := if ref.host = "" then base.host else ref.host,
         path := ref.path, query := ref.query }

/-- Modelled from `net/url.URL.Parse`: parse a reference string and resolve
it against the receiver. -/
def URL.Parse (base : URL) (ref : String) : Option URL :=
  (urlParse ref).map (fun u => base.ResolveReference u)

/-- Construction errors of `NewHttpClient`: the missing-API-key sentinel
(`ErrorMissingAPIKey` in the source) or a wrapped base-URL parse error. -/
inductive ConstructionError where
  | missingAPIKey : ConstructionError
  | parseError : ConstructionError
deriving DecidableEq, Repr

/-- The sentinel returned when no API key is informed (http.go line 17). -/
def ErrorMissingAPIKey : ConstructionError := .missingAPIKey

/-- The HTTP client: an immutable base URL, the API key held by the
decorated transport, and the optional logger modelled by its presence
(`Logger` is nil exactly when `hasLogger = false`). -/
structure Client where
  baseURL : URL
  apiKey : String
  hasLogger : Bool
deriving DecidableEq, Repr

/-- `NewHttpClient` (http.go lines 37 to 58): reject an empty API key with
the distinguished sentinel, parse the base URL, and build the client with
the key-injecting transport and no logger. Construction is a pure function
of its two string inputs: no transport oracle is involved, so no network
traffic can occur. -/
def NewHttpClient (baseURL apiKey : String) : Except ConstructionError Client :=
  if apiKey.length = 0 then .error ErrorMissingAPIKey
  else
    match urlParse baseURL with
    | none => .error .parseError
    | some u => .ok { baseURL := u, apiKey := apiKey, hasLogger := false }

/-- One diagnostic emitted through the optional `Logger` (`logf` calls at
http.go lines 112 and 143). -/
inductive LogEntry where
  | requestBody (buf : List Char) : LogEntry
  | response (url : URL) (status : Nat) (body : List Char) : LogEntry
deriving DecidableEq, Repr

/-- A request body argument (a Go interface value): it optionally
implements `QueryAppender.AppendToQuery`, and JSON-encoding it either
fails (`encoded = none`) or produces a JSON value. -/
structure BodyVal where
  AppendToQuery : Option (URL → URL)
  encoded : Option Json

/-- An HTTP token character (RFC 7230), as accepted by
`net/http.NewRequest` for methods; code points 39 and 96 are the
apostrophe and the backtick. -/
def isTokenChar (c : Char) : Bool :=
  c.isAlphanum || c = '!' || c = '#' || c = '$' || c = '%' || c = '&' ||
  c.toNat = 39 || c = '*' || c = '+' || c = '-' || c = '.' || c = '^' ||
  c = '_' || c.toNat = 96 || c = '|' || c = '~'

/-- Method validity check of `net/http.NewRequest`. -/
def validMethod (m : String) : Bool :=
  m.length > 0 && m.data.all isTokenChar

/-- An outbound HTTP request: method, resolved URL, optional buffered
body, and headers. -/
structure Request where
  method : String
  url : URL
  body : Option (List Char)
  headers : List (String × String)
deriving DecidableEq, Repr

/-- `http.Header.Set`: replace any existing value for the key. -/
def setHeader (hs : List (String × String)) (k v : String) : List (String × String) :=
  hs.filter (fun p => p.1 ≠ k) ++ [(k, v)]

/-- The `QueryAppender` type assertion and call (http.go lines 97 to 99):
when the body value implements the capability, it rewrites the resolved
URL; this happens for every HTTP method. -/
def applyQA (body : Option BodyVal) (u : URL) : URL :=
  match body with
  | some bv =>
    match bv.AppendToQuery with
    | some f => f u
    | none => u
  | none => u

/-- Failures of `Client.NewRequest`: URL resolution, JSON encoding, or an
invalid method rejected by `net/http.NewRequest`. -/
inductive RequestError where
  | urlParseError : RequestError
  | encodeError : RequestError
  | invalidMethod : RequestError
deriving DecidableEq, Repr

/-- `Client.NewRequest` (http.go lines 91 to 126): resolve the joined path
against the base URL, let a `QueryAppender` body rewrite the query
regardless of method, discard the body for GET, JSON-encode any remaining
body into a buffer (logging it), build the request, and set
`Content-Type` only when a body is attached and `Accept` always. The
second component is the diagnostics emitted through the optional logger. -/
def Client.NewRequest (c : Client) (method uri : String) (body : Option BodyVal) :
    Except RequestError Request × List LogEntry :=
  match c.baseURL.Parse (String.intercalate "/" [c.baseURL.path, uri]) with
  | none => (.error .urlParseError, [])
  | some u0 =>
    let u := applyQA body u0
    let body1 := if method = "GET" then none else body
    match body1 with
    | some bv =>
      match bv.encoded with
      | none => (.error .encodeError, [])
      | some j =>
        let buf := encodeToBuffer j
        let log := if c.hasLogger then [LogEntry.requestBody buf] else []
        let m := if method = "" then "GET" else method
        if validMethod m then
          (.ok { method := m, url := u, body := some buf,
                 headers := setHeader (setHeader [] "Content-Type" "application/json")
                   "Accept" "application/json" }, log)
        else (.error .invalidMethod, log)
    | none =>
      let m := if method = "" then "GET" else method
      if validMethod m then
        (.ok { method := m, url := u, body := none,
               headers := setHeader [] "Accept" "application/json" }, [])
      else (.error .invalidMethod, [])

/-- The API error payload (http.go lines 78 to 81): a message and a
numeric code, decoded from non-2xx non-404 bodies. -/
structure Error where
  Message : String
  Code : Int
deriving DecidableEq, Repr

/-- The `error` interface implementation of `Error` (http.go line 83). -/
def Error.Error (e : Error) : String :=
  e.Message ++ " (code: " ++ toString e.Code ++ ")"

/-- The 404 sentinel (http.go line 88): an `Error` value whose message is
fixed and whose code is the zero value. -/
def ErrorNotFound : Error := { Message := "Nothing was found", Code := 0 }

/-- Unmarshalling one JSON object member into an `Error` under Go
`encoding/json` rules: unknown keys are ignored, a null member leaves the
field alone, and a type mismatch fails. -/
def jsonToErrorField (e : Error) (kv : List Char × Json) : Option Error :=
  if kv.1 = "message".data then
    match kv.2 with
    | Json.str s => some { e with Message := String.mk s }
    | Json.null => some e
    | _ => none
  else if kv.1 = "code".data then
    match kv.2 with
    | Json.num n => some { e with Code := n }
    | Json.null => some e
    | _ => none
  else some e

/-- Unmarshalling a JSON value into an `Error` (zero value `Message = ""`,
`Code = 0`): JSON null is a successful no-op, an object fills the matching
fields with the last duplicate winning, anything else is a type error. -/
def jsonToError : Json → Option Error
  | Json.null => some { Message := "", Code := 0 }
  | Json.obj fields => fields.foldlM jsonToErrorField { Message := "", Code := 0 }
  | _ => none

/-- What `json.NewDecoder(buf).Decode(&apiErr)` yields on a buffered body
(http.go lines 149 to 157): `none` is a decode error (including the empty
buffer, which is EOF). -/
def decodeAPIError (buf : List Char) : Option Error :=
  match jsonDecode buf with
  | none => none
  | some j => jsonToError j

/-- A received response, with the body already fully buffered. -/
structure Response where
  StatusCode : Nat
  body : List Char
deriving DecidableEq, Repr

/-- The key-injecting transport decorator (http.go lines 30 to 34): set
the `X-Api-Key` header, then delegate unchanged to the wrapped transport. -/
def transport.RoundTrip (apiKey : String)
    (next : Request → Except String Response) (r : Request) :
    Except String Response :=
  next { r with headers := setHeader r.headers "X-Api-Key" apiKey }

/-- The `error` results `Client.Do` can return: a transport error
propagated unwrapped, an `Error` value (the 404 sentinel or a decoded API
error, both stack-wrapped without changing identity), or a JSON decode
failure. -/
inductive DoError where
  | transport (msg : String) : DoError
  | api (e : Error) : DoError
  | decodeFailure : DoError
deriving DecidableEq, Repr

/-- The outcome of `Client.Do`: the returned response, the returned error,
and the final value of the caller-supplied decode destination. -/
structure DoResult (σ : Type) where
  resp : Option Response
  err : Option DoError
  dest : Option σ
deriving Repr

/-- `Client.Do` (http.go lines 129 to 169): execute the request through
the decorated transport, buffer the body, log, then classify: 404 returns
the `ErrorNotFound` sentinel without touching the body; any status below
200 or above 300 decodes the body as an `Error` (a decode failure is
itself returned); otherwise success: with no destination or an empty
buffer nothing is decoded, else the body is decoded into the destination.
`rt` is the underlying transport, `dec` the JSON unmarshaller for the
destination type. -/
def Client.Do {σ : Type} (c : Client) (rt : Request → Except String Response)
    (req : Request) (v : Option σ) (dec : List Char → Option σ) :
    DoResult σ × List LogEntry :=
  match transport.RoundTrip c.apiKey rt req with
  | .error e => ({ resp := none, err := some (.transport e), dest := v }, [])
  | .ok r =>
    let buf := r.body
    let log := if c.hasLogger then [LogEntry.response req.url r.StatusCode buf] else []
    if r.StatusCode = 404 then
      ({ resp := some r, err := some (.api ErrorNotFound), dest := v }, log)
    else if r.StatusCode < 200 ∨ r.StatusCode > 300 then
      match decodeAPIError buf with
      | none => ({ resp := some r, err := some .decodeFailure, dest := v }, log)
      | some apiErr => ({ resp := some r, err := some (.api apiErr), dest := v }, log)
    else if v.isNone then
      ({ resp := some r, err := none, dest := v }, log)
    else if buf.length = 0 then
      ({ resp := some r, err := none, dest := v }, log)
    else
      match dec buf with
      | none => ({ resp := some r, err := some .decodeFailure, dest := v }, log)
      | some w => ({ resp := some r, err := none, dest := some w }, log)

/-- A sample base URL for concrete instantiations. -/
def exURL : URL :=
  { scheme := "https", host := "api.clockify.me", path := "/api", query := "" }

/-- A sample client with the logger absent (`Logger` nil). -/
def exClient : Client := { baseURL := exURL, apiKey := "key", hasLogger := false }

/-- A sample already-built request. -/
def exReq : Request := { method := "GET", url := exURL, body := none, headers := [] }

/-- A transport returning a fixed response for every request. -/
def rtConst (st : Nat) (body : List Char) : Request → Except String Response :=
  fun _ => Except.ok { StatusCode := st, body := body }

/-- The body bytes of a server error payload with message boom and code 42. -/
def boomBody : List Char := "\x7b\"message\":\"boom\",\"code\":42\x7d".data

/-- Body bytes that are not valid JSON. -/
def garbageBody : List Char := "garbage".data

/-- C1, counterexample: a response with status exactly 300 and an
undecodable body makes `Do` return no error at all — it takes the success
path and never attempts to decode the body as an APIError, contrary to the
claim that 300 is treated as a failure. -/
theorem c1_counterexample :
    (Client.Do exClient (rtConst 300 garbageBody) exReq (none : Option Error)
      (fun _ => none)).1 =
    DoResult.mk (some (Response.mk 300 garbageBody)) none none := by
  rfl

/-- C1, amended: the failure check of `Do` is status below 200 or above
300, so a response with status exactly 300 is classified as success: for
every body (decodable or not) and no decode destination, `Do` returns the
response with no error and never takes the APIError path. -/
theorem c1_amended_status300_success {σ : Type} (c : Client)
    (rt : Request → Except String Response) (req : Request) (body : List Char)
    (dec : List Char → Option σ)
    (h : transport.RoundTrip c.apiKey rt req = Except.ok (Response.mk 300 body)) :
    (Client.Do c rt req (none : Option σ) dec).1 =
      DoResult.mk (some (Response.mk 300 body)) none none := by
  simp only [Client.Do]
  rw [h]
  simp

/-- Witness for C1 amended, at a concrete client, transport and body. -/
theorem c1_amended_witness :
    (Client.Do exClient (rtConst 300 "ok".data) exReq (none : Option Error)
      (fun _ => none)).1 =
      DoResult.mk (some (Response.mk 300 "ok".data)) none none :=
  c1_amended_status300_success exClient (rtConst 300 "ok".data) exReq "ok".data
    (fun _ => none) rfl

/-- C3: a response with status 404 makes `Do` return the response together
with the `ErrorNotFound` sentinel, for every body (including empty or
malformed) and every decode destination; the body is never parsed. -/
theorem c3_notfound {σ : Type} (c : Client) (rt : Request → Except String Response)
    (req : Request) (v : Option σ) (dec : List Char → Option σ) (body : List Char)
    (h : transport.RoundTrip c.apiKey rt req = Except.ok (Response.mk 404 body)) :
    (Client.Do c rt req v dec).1 =
      DoResult.mk (some (Response.mk 404 body)) (some (DoError.api ErrorNotFound)) v := by
  simp only [Client.Do]
  rw [h]
  simp

/-- Witness for C3 at a concrete malformed body. -/
theorem c3_witness :
    (Client.Do exClient (rtConst 404 garbageBody) exReq (none : Option Error)
      (fun _ => none)).1 =
      DoResult.mk (some (Response.mk 404 garbageBody))
        (some (DoError.api ErrorNotFound)) none :=
  c3_notfound exClient (rtConst 404 garbageBody) exReq none (fun _ => none)
    garbageBody rfl

/-- C4: `NewHttpClient` with an empty API key fails with the distinguished
missing-API-key error for every base URL string (the key is checked
first); with a non-empty key and a base URL that parses it succeeds and
the resulting client holds that URL, that key, and no logger. The
constructor is a pure function of its two strings: no transport is
involved, so construction performs no network traffic. -/
theorem c4_construction :
    (∀ baseURL : String, NewHttpClient baseURL "" = Except.error ErrorMissingAPIKey) ∧
    (∀ (baseURL apiKey : String) (u : URL), apiKey ≠ "" → urlParse baseURL = some u →
      NewHttpClient baseURL apiKey = Except.ok (Client.mk u apiKey false)) := by
  constructor
  · intro b
    simp [NewHttpClient]
  · intro b k u hk hu
    have hlen : k.length ≠ 0 := by
      intro h
      apply hk
      cases k with
      | mk l =>
        cases l with
        | nil => rfl
        | cons c cs => simp [String.length] at h
    simp only [NewHttpClient, if_neg hlen]
    rw [hu]

/-- Witness for C4: both construction outcomes at concrete strings. -/
theorem c4_witness :
    NewHttpClient "https://api.clockify.me/api" "" = Except.error ErrorMissingAPIKey ∧
    NewHttpClient "https://api.clockify.me/api" "secret" =
      Except.ok (Client.mk exURL "secret" false) := by
  constructor
  · exact c4_construction.1 "https://api.clockify.me/api"
  · exact c4_construction.2 "https://api.clockify.me/api" "secret" exURL
      (by decide) (by decide)

/-- C2: building a request with method exactly GET and a non-nil body
value never JSON-encodes that value — the request carries no payload and
nothing is logged — while its `QueryAppender` contribution (if any) is
still applied to the resolved URL. -/
theorem c2_get_skips_body (c : Client) (uri : String) (bv : BodyVal) (u0 : URL)
    (hu : c.baseURL.Parse (String.intercalate "/" [c.baseURL.path, uri]) = some u0) :
    Client.NewRequest c "GET" uri (some bv) =
      (Except.ok (Request.mk "GET" (applyQA (some bv) u0) none
        [("Accept", "application/json")]), []) := by
  simp only [Client.NewRequest]
  rw [hu]
  simp [setHeader]
  decide

/-- Witness for C2: a concrete GET with a body value that both appends a
query parameter and would JSON-encode; the built request has no body and
carries the rewritten query. -/
theorem c2_witness :
    Client.NewRequest exClient "GET" "projects"
      (some (BodyVal.mk (some (fun u => { u with query := "name=x" }))
        (some (Json.num 1)))) =
      (Except.ok (Request.mk "GET"
        (URL.mk "https" "api.clockify.me" "/api/projects" "name=x") none
        [("Accept", "application/json")]), []) :=
  c2_get_skips_body exClient "projects"
    (BodyVal.mk (some (fun u => { u with query := "name=x" })) (some (Json.num 1)))
    (URL.mk "https" "api.clockify.me" "/api/projects" "") rfl

/-- C5: for a non-GET method (as accepted by the transport layer) and a
non-nil body value whose JSON encoding succeeds, the built request carries
`Content-Type: application/json` and the encoded buffer as its body, and
that buffer round-trips: JSON-decoding it yields exactly the encoded
value. -/
theorem c5_nonget_body_roundtrip (c : Client) (method uri : String) (bv : BodyVal)
    (j : Json) (u0 : URL)
    (hm : method ≠ "GET") (hvm : validMethod method = true)
    (hu : c.baseURL.Parse (String.intercalate "/" [c.baseURL.path, uri]) = some u0)
    (hj : bv.encoded = some j) :
    Client.NewRequest c method uri (some bv) =
      (Except.ok (Request.mk method (applyQA (some bv) u0) (some (encodeToBuffer j))
        [("Content-Type", "application/json"), ("Accept", "application/json")]),
       if c.hasLogger then [LogEntry.requestBody (encodeToBuffer j)] else []) ∧
    jsonDecode (encodeToBuffer j) = some j := by
  constructor
  · have hne : method ≠ "" := by
      intro h
      rw [h] at hvm
      exact absurd hvm (by decide)
    simp only [Client.NewRequest]
    rw [hu]
    simp [hm, hj, hne, hvm, setHeader]
  · exact jsonDecode_encodeToBuffer j

/-- Witness for C5: a concrete POST whose object body is encoded, attached
with the JSON content type, and decodes back to itself. -/
theorem c5_witness :
    Client.NewRequest exClient "POST" "projects"
      (some (BodyVal.mk none (some (Json.obj [("name".data, Json.str "proj".data)])))) =
      (Except.ok (Request.mk "POST"
        (URL.mk "https" "api.clockify.me" "/api/projects" "")
        (some (encodeToBuffer (Json.obj [("name".data, Json.str "proj".data)])))
        [("Content-Type", "application/json"), ("Accept", "application/json")]), []) ∧
    jsonDecode (encodeToBuffer (Json.obj [("name".data, Json.str "proj".data)])) =
      some (Json.obj [("name".data, Json.str "proj".data)]) :=
  c5_nonget_body_roundtrip exClient "POST" "projects"
    (BodyVal.mk none (some (Json.obj [("name".data, Json.str "proj".data)])))
    (Json.obj [("name".data, Json.str "proj".data)])
    (URL.mk "https" "api.clockify.me" "/api/projects" "")
    (by decide) (by decide) rfl rfl

/-- C8: the request builder is deterministic in its inputs — two calls on
the same client with identical method, path and body value yield requests
with identical method, URL and body bytes; there is no hidden state. -/
theorem c8_builder_deterministic (c : Client) (method uri : String)
    (body : Option BodyVal) (r1 r2 : Request) (l1 l2 : List LogEntry)
    (h1 : Client.NewRequest c method uri body = (Except.ok r1, l1))
    (h2 : Client.NewRequest c method uri body = (Except.ok r2, l2)) :
    r1.method = r2.method ∧ r1.url = r2.url ∧ r1.body = r2.body := by
  have h := h1.symm.trans h2
  simp only [Prod.mk.injEq, Except.ok.injEq] at h
  rw [h.1]
  exact ⟨rfl, rfl, rfl⟩

/-- Witness for C8 at a concrete request pair. -/
theorem c8_witness :
    (Request.mk "GET" (URL.mk "https" "api.clockify.me" "/api/projects" "") none
      [("Accept", "application/json")]).method = "GET" ∧
    (Request.mk "GET" (URL.mk "https" "api.clockify.me" "/api/projects" "") none
      [("Accept", "application/json")]).url =
      URL.mk "https" "api.clockify.me" "/api/projects" "" ∧
    (Request.mk "GET" (URL.mk "https" "api.clockify.me" "/api/projects" "") none
      [("Accept", "application/json")]).body = none :=
  c8_builder_deterministic exClient "GET" "projects" none
    (Request.mk "GET" (URL.mk "https" "api.clockify.me" "/api/projects" "") none
      [("Accept", "application/json")])
    (Request.mk "GET" (URL.mk "https" "api.clockify.me" "/api/projects" "") none
      [("Accept", "application/json")])
    [] [] rfl rfl

/-- C6: for a response whose status is neither 404 nor in the accepted
range, `Do` decodes the body as an API `Error`: a body that decodes yields
that decoded `Error` value (wrapped), and an undecodable body yields the
decode failure instead. -/
theorem c6_api_error_decode {σ : Type} (c : Client)
    (rt : Request → Except String Response) (req : Request) (v : Option σ)
    (dec : List Char → Option σ) (st : Nat) (body : List Char)
    (h : transport.RoundTrip c.apiKey rt req = Except.ok (Response.mk st body))
    (h404 : st ≠ 404) (hout : st < 200 ∨ st > 300) :
    (Client.Do c rt req v dec).1 =
      DoResult.mk (some (Response.mk st body))
        (some (match decodeAPIError body with
          | some e => DoError.api e
          | none => DoError.decodeFailure)) v := by
  simp only [Client.Do]
  rw [h]
  cases hdec : decodeAPIError body <;> simp [h404, hout, hdec]

/-- Witness for C6 at status 500: the boom body decodes to an `Error` with
message boom and code 42, and the garbage body yields the decode
failure. -/
theorem c6_witness :
    (Client.Do exClient (rtConst 500 boomBody) exReq (none : Option Error)
      (fun _ => none)).1 =
      DoResult.mk (some (Response.mk 500 boomBody))
        (some (DoError.api (Error.mk "boom" 42))) none ∧
    (Client.Do exClient (rtConst 500 garbageBody) exReq (none : Option Error)
      (fun _ => none)).1 =
      DoResult.mk (some (Response.mk 500 garbageBody))
        (some DoError.decodeFailure) none := by
  constructor
  · rw [c6_api_error_decode exClient (rtConst 500 boomBody) exReq none (fun _ => none)
      500 boomBody rfl (by decide) (by decide)]
    rfl
  · rw [c6_api_error_decode exClient (rtConst 500 garbageBody) exReq none (fun _ => none)
      500 garbageBody rfl (by decide) (by decide)]
    rfl

/-- C7: a success-range response (status in 200 to 299) with an empty
buffered body and a supplied decode destination yields the response with
no error, and the destination keeps its initial value: no decode is
attempted, whatever the unmarshaller would do. -/
theorem c7_success_empty_body {σ : Type} (c : Client)
    (rt : Request → Except String Response) (req : Request) (v0 : σ)
    (dec : List Char → Option σ) (st : Nat)
    (h : transport.RoundTrip c.apiKey rt req = Except.ok (Response.mk st []))
    (hlo : 200 ≤ st) (hhi : st < 300) :
    (Client.Do c rt req (some v0) dec).1 =
      DoResult.mk (some (Response.mk st [])) none (some v0) := by
  simp only [Client.Do]
  rw [h]
  have h404 : st ≠ 404 := by omega
  have hin : ¬(st < 200 ∨ st > 300) := by omega
  simp [h404, hin]

/-- Witness for C7 at status 204 with a destination holding a sentinel
value that must survive unchanged. -/
theorem c7_witness :
    (Client.Do exClient (rtConst 204 []) exReq (some (Error.mk "keep" 7))
      (fun _ => none)).1 =
      DoResult.mk (some (Response.mk 204 [])) none (some (Error.mk "keep" 7)) :=
  c7_success_empty_body exClient (rtConst 204 []) exReq (Error.mk "keep" 7)
    (fun _ => none) 204 rfl (by decide) (by decide)

/-- C9: the presence or absence of the logger never changes the
request/response behavior: for every input, `NewRequest` and `Do` return
the same result (request or error, response, error, destination) whether
the client has a logger or not — only the emitted diagnostics differ. -/
theorem c9_logger_transparent {σ : Type} (c : Client) (a b : Bool)
    (method uri : String) (body : Option BodyVal)
    (rt : Request → Except String Response) (req : Request) (v : Option σ)
    (dec : List Char → Option σ) :
    (Client.NewRequest (Client.mk c.baseURL c.apiKey a) method uri body).1 =
      (Client.NewRequest (Client.mk c.baseURL c.apiKey b) method uri body).1 ∧
    (Client.Do (Client.mk c.baseURL c.apiKey a) rt req v dec).1 =
      (Client.Do (Client.mk c.baseURL c.apiKey b) rt req v dec).1 := by
  constructor
  · simp only [Client.NewRequest]
    repeat' split
    all_goals rfl
  · simp only [Client.Do]
    repeat' split
    all_goals rfl

/-- C10: the 404 sentinel is an ordinary `Error` value with message
Nothing was found and code 0; `Do` returns it for any 404, and a status
500 whose body decodes to exactly that message and code produces the very
same wrapped `Error` value, so the two outcomes are indistinguishable by
type or by value. -/
theorem c10_sentinel_indistinguishable {σ : Type} (c : Client)
    (rt1 rt2 : Request → Except String Response) (req : Request) (v : Option σ)
    (dec : List Char → Option σ) (body : List Char)
    (h1 : transport.RoundTrip c.apiKey rt1 req = Except.ok (Response.mk 404 body))
    (h2 : transport.RoundTrip c.apiKey rt2 req = Except.ok (Response.mk 500
      (encodeToBuffer (Json.obj [("message".data, Json.str "Nothing was found".data),
        ("code".data, Json.num 0)])))) :
    ErrorNotFound = Error.mk "Nothing was found" 0 ∧
    (Client.Do c rt1 req v dec).1.err = some (DoError.api ErrorNotFound) ∧
    (Client.Do c rt2 req v dec).1.err = some (DoError.api ErrorNotFound) ∧
    (Client.Do c rt1 req v dec).1.err = (Client.Do c rt2 req v dec).1.err := by
  have hdec : decodeAPIError (encodeToBuffer
      (Json.obj [("message".data, Json.str "Nothing was found".data),
        ("code".data, Json.num 0)])) = some ErrorNotFound := by
    rw [decodeAPIError, jsonDecode_encodeToBuffer]
    rfl
  have k404 : (Client.Do c rt1 req v dec).1.err = some (DoError.api ErrorNotFound) := by
    simp only [Client.Do]
    rw [h1]
    simp
  have k500 : (Client.Do c rt2 req v dec).1.err = some (DoError.api ErrorNotFound) := by
    simp only [Client.Do]
    rw [h2]
    simp [hdec]
  exact ⟨rfl, k404, k500, k404.trans k500.symm⟩

/-- Witness for C10: concrete transports producing the 404 and the
sentinel-shaped 500, yielding equal error values. -/
theorem c10_witness :
    ErrorNotFound = Error.mk "Nothing was found" 0 ∧
    (Client.Do exClient (rtConst 404 garbageBody) exReq (none : Option Error)
      (fun _ => none)).1.err = some (DoError.api ErrorNotFound) ∧
    (Client.Do exClient (rtConst 500
      (encodeToBuffer (Json.obj [("message".data, Json.str "Nothing was found".data),
        ("code".data, Json.num 0)]))) exReq (none : Option Error)
      (fun _ => none)).1.err = some (DoError.api ErrorNotFound) ∧
    (Client.Do exClient (rtConst 404 garbageBody) exReq (none : Option Error)
      (fun _ => none)).1.err =
      (Client.Do exClient (rtConst 500
        (encodeToBuffer (Json.obj [("message".data, Json.str "Nothing was found".data),
          ("code".data, Json.num 0)]))) exReq (none : Option Error)
        (fun _ => none)).1.err :=
  c10_sentinel_indistinguishable exClient (rtConst 404 garbageBody)
    (rtConst 500 (encodeToBuffer (Json.obj
      [("message".data, Json.str "Nothing was found".data), ("code".data, Json.num 0)])))
    exReq none (fun _ => none) garbageBody rfl rfl

end Clockify
